import Mathlib

set_option maxRecDepth 4000

/-
Verification of the six/sixx contacts-database graph core.

Shallow embedding of the node/link graph, the predicate algebra, the
traversal and place-derivation routines (sixx/node.py, sixx/person.py,
six/org.py), the block-parser dataset memo (six/parse.py), the predicate
expression grammar (six/expr.py) and the model registry with its
suspend-and-retry forward-reference resolver (six/model.py).

Python objects are identified by numeric ids (the id() identity used by
the source for the visited set and for object comparisons).  An Entity is
either a plain node (ends = none) or a link (ends = some (node1, node2),
holding the ids of its two endpoints, as set by Link.__init__).  The cls
field is the runtime class tag of the object, used by the isinstance
tests of the source; the op field records the result of the only_place()
method of a link, which in the source is a per-class override (for
example Belongs_to.only_place returns the family place, Has_phone
inherits the place attribute of the telephone, Has_mobile returns None).
-/

structure Entity where
  eid : Nat
  ends : Option (Nat × Nat)
  cls : Nat
  op : Option Nat
deriving DecidableEq

structure Graph where
  entities : List Entity
deriving DecidableEq

/-- Dereference an object id, as the source does implicitly by holding a
reference.  Used only on well-formed graphs where the id exists. -/
def Graph.entityAt (G : Graph) (i : Nat) : Entity :=
  (G.entities.find? (fun e => e.eid == i)).getD ⟨i, none, 0, none⟩

/-- The set of links incident to a node: Link.__init__ calls
n1.add_link(self) and n2.add_link(self), so the _links set of a node
holds exactly the links having that node as an endpoint. -/
def Graph.incident (G : Graph) (x : Entity) : List Entity :=
  G.entities.filter (fun l =>
    match l.ends with
    | some p => p.1 == x.eid || p.2 == x.eid
    | none => false)

/-- Link.other: if node is self.node1 return self.node2, else return
self.node1 (the assertion that node is then self.node2 holds on the
well-formed graphs we consider). -/
def Entity.otherId (l : Entity) (x : Entity) : Nat :=
  match l.ends with
  | some p => if p.1 == x.eid then p.2 else p.1
  | none => 0

def Graph.other (G : Graph) (l x : Entity) : Entity :=
  G.entityAt (l.otherId x)

/-
The predicate algebra of sixx/node.py.  A node_predicate wraps a
one-argument boolean function on nodes, a link_predicate the same on
links (link_predicate subclasses node_predicate), and a
selection_predicate wraps a two-argument function of the origin node and
the link.  Since the Python closures dereference the object graph only
at call time, the selection functions here take the Graph as an extra
argument.
-/

inductive PredC where
  | node (f : Entity → Bool)
  | link (f : Entity → Bool)
  | sel (f : Graph → Entity → Entity → Bool)

/-- selection_predicate.cast: a link predicate becomes is_link(pred)
(applied to the link itself), a node predicate becomes is_other(pred)
(applied to the node at the other end of the link), a selection
predicate is returned unchanged. -/
def PredC.cast (p : PredC) : Graph → Entity → Entity → Bool :=
  match p with
  | .node f => fun G n l => f (G.other l n)
  | .link f => fun _ _ l => f l
  | .sel f => f

/-- The Python & operator on predicates.  selection_predicate.__and__
and __rand__ cast the other operand and conjoin; node_predicate.__and__
accepts any node_predicate instance (link_predicate included, since it
subclasses node_predicate) and conjoins the raw wrapped functions;
link_predicate.__and__ requires a link_predicate and otherwise the
operation is undefined (TypeError), which none returns here. -/
def PredC.pand : PredC → PredC → Option PredC
  | .sel f, q => some (.sel (fun G n l => f G n l && q.cast G n l))
  | .node f, .node g => some (.node (fun e => f e && g e))
  | .node f, .link g => some (.node (fun e => f e && g e))
  | .node f, .sel s => some (.sel (fun G n l => (PredC.node f).cast G n l && s G n l))
  | .link f, .link g => some (.link (fun e => f e && g e))
  | .link f, .sel s => some (.sel (fun G n l => (PredC.link f).cast G n l && s G n l))
  | .link _, .node _ => none

/-- The Python ~ operator: each predicate class negates its own wrapped
function. -/
def PredC.pnot : PredC → PredC
  | .node f => .node (fun e => !(f e))
  | .link f => .link (fun e => !(f e))
  | .sel f => .sel (fun G n l => !(f G n l))

/-- Node.links(pred): iterate over the incident links that satisfy the
predicate; a missing predicate means all links (sixx/node.py line 106
builds the constant-true selection predicate), otherwise the predicate
is cast to a selection predicate first. -/
def Node.links (G : Graph) (x : Entity) (p : Option PredC) : List Entity :=
  (G.incident x).filter (fun l =>
    match p with
    | none => true
    | some q => q.cast G x l)

/-- The outgoing selection predicate: node is link.node1. -/
def outgoing : PredC :=
  .sel (fun _ n l =>
    match l.ends with
    | some p => p.1 == n.eid
    | none => false)

/-- The incoming selection predicate: node is link.node2. -/
def incoming : PredC :=
  .sel (fun _ n l =>
    match l.ends with
    | some p => p.2 == n.eid
    | none => false)

/-- is_link(L) for a concrete Link subclass L: wraps instance_p(L) and
applies it to the link itself, giving a selection predicate.  instOf is
the isinstance relation on runtime class tags. -/
def is_linkC (instOf : Nat → Nat → Bool) (C : Nat) : PredC :=
  .sel (fun _ _ l => instOf l.cls C)

/-- instance_p(typ): a link predicate when typ is a Link subclass, else
a node predicate, testing isinstance. -/
def instance_p (instOf : Nat → Nat → Bool) (isLinkCls : Bool) (C : Nat) : PredC :=
  if isLinkCls then .link (fun e => instOf e.cls C) else .node (fun e => instOf e.cls C)

def PredC.isNode : PredC → Bool
  | .node _ => true
  | _ => false

def PredC.isLinkP : PredC → Bool
  | .link _ => true
  | _ => false

theorem mem_links {G : Graph} {x l : Entity} {q : PredC} :
    l ∈ Node.links G x (some q) ↔ l ∈ G.incident x ∧ q.cast G x l = true := by
  simp [Node.links, List.mem_filter]

theorem pnot_cast (P : PredC) (G : Graph) (n l : Entity) :
    (PredC.pnot P).cast G n l = !(P.cast G n l) := by
  cases P <;> rfl

/-- C3 (amended).  For any node N and predicates P, Q combined with the
Python & operator: whenever the combination is defined and P, Q are not
a bare node-predicate/link-predicate pair (in that one mixed case the
source conjoins the raw functions inside a node predicate, so the link
test is applied to the far node instead of the link, and the law fails,
see the counterexample), the links yielded by N.links(P and Q) are
exactly those yielded by both N.links(P) and N.links(Q); N.links(not P)
yields exactly the complement of N.links(P) within the full link set
N.links(); and outgoing combined with is_link(T) yields the same links
in either order. -/
theorem C3_predicate_algebra :
    (∀ (G : Graph) (x : Entity) (P Q R : PredC), PredC.pand P Q = some R →
      (P.isNode && Q.isLinkP) = false →
      ∀ l, l ∈ Node.links G x (some R) ↔
        l ∈ Node.links G x (some P) ∧ l ∈ Node.links G x (some Q)) ∧
    (∀ (G : Graph) (x : Entity) (P : PredC) (l : Entity),
      l ∈ Node.links G x (some (PredC.pnot P)) ↔
        l ∈ Node.links G x none ∧ l ∉ Node.links G x (some P)) ∧
    (∀ (G : Graph) (x : Entity) (instOf : Nat → Nat → Bool) (C : Nat) (R1 R2 : PredC),
      PredC.pand outgoing (is_linkC instOf C) = some R1 →
      PredC.pand (is_linkC instOf C) outgoing = some R2 →
      Node.links G x (some R1) = Node.links G x (some R2)) := by
  refine ⟨?pand, ?pnot, ?comm⟩
  case pand =>
    intro G x P Q R hR hmix l
    have hcast : ∀ l2, R.cast G x l2 = (P.cast G x l2 && Q.cast G x l2) := by
      intro l2
      cases P <;> cases Q
      case node.link => simp [PredC.isNode, PredC.isLinkP] at hmix
      case link.node => simp [PredC.pand] at hR
      all_goals simp only [PredC.pand] at hR
      all_goals injection hR with h
      all_goals subst h
      all_goals rfl
    simp only [mem_links, hcast, Bool.and_eq_true]
    tauto
  case pnot =>
    intro G x P l
    have huniv : l ∈ Node.links G x none ↔ l ∈ G.incident x := by
      simp [Node.links, List.mem_filter]
    simp only [mem_links, pnot_cast, huniv, Bool.not_eq_true']
    constructor
    · rintro ⟨hi, hc⟩
      refine ⟨hi, ?_⟩
      rintro ⟨-, hc2⟩
      rw [hc2] at hc
      simp at hc
    · rintro ⟨hi, hn⟩
      refine ⟨hi, ?_⟩
      cases hc : P.cast G x l
      · rfl
      · exact absurd ⟨hi, hc⟩ hn
  case comm =>
    intro G x instOf C R1 R2 h1 h2
    injection h1 with h1
    injection h2 with h2
    subst h1
    subst h2
    unfold Node.links
    apply List.filter_congr
    intro a _
    simp [PredC.cast, outgoing, is_linkC, Bool.and_comm]

/-
Concrete counterexample graph for C3: node 0 and node 1 joined by link 2
of runtime link class 5.  The isinstance relation C3instOf makes class 0
the root Node class (everything is a Node).  C3P is instance_p(Node), a
node predicate that accepts every object; C3Q is instance_p(T) for the
Link subclass T = 5, a link predicate.  In the source, C3P & C3Q runs
node_predicate.__and__, producing a node predicate, which Node.links
casts with is_other, so the isinstance-T test is applied to the far NODE
(which is not a T) instead of to the link.
-/

def C3instOf : Nat → Nat → Bool := fun a b => a == b || b == 0

def C3G : Graph := ⟨[⟨0, none, 0, none⟩, ⟨1, none, 0, none⟩, ⟨2, some (0, 1), 5, none⟩]⟩

def C3N : Entity := ⟨0, none, 0, none⟩

def C3L : Entity := ⟨2, some (0, 1), 5, none⟩

def C3P : PredC := instance_p C3instOf false 0

def C3Q : PredC := instance_p C3instOf true 5

def C3R : PredC := (PredC.pand C3P C3Q).getD (PredC.node fun _ => false)

/-- C3 counterexample: with the node predicate C3P (accepts everything)
and the link predicate C3Q (isinstance of the link class of C3L), the
combination C3P & C3Q is defined, N.links(C3P) and N.links(C3Q) both
yield exactly the link C3L, yet N.links(C3P & C3Q) yields nothing: the
intersection law of the claim fails on this input. -/
theorem C3_counterexample :
    (PredC.pand C3P C3Q).isSome = true ∧
    Node.links C3G C3N (some C3R) = [] ∧
    Node.links C3G C3N (some C3P) = [C3L] ∧
    Node.links C3G C3N (some C3Q) = [C3L] := by
  refine ⟨rfl, rfl, rfl, rfl⟩

def C3WR : PredC := (PredC.pand outgoing C3Q).getD (PredC.node fun _ => false)

def C3WR1 : PredC := (PredC.pand outgoing (is_linkC C3instOf 5)).getD (PredC.node fun _ => false)

def C3WR2 : PredC := (PredC.pand (is_linkC C3instOf 5) outgoing).getD (PredC.node fun _ => false)

/-- Witness for C3: the amended law applied on the concrete graph C3G,
with the selection predicate outgoing and the link predicate C3Q (an
allowed combination), and the coercion-order part applied with the
concrete class tag 5. -/
theorem C3_predicate_algebra_witness :
    (C3L ∈ Node.links C3G C3N (some C3WR) ↔
      C3L ∈ Node.links C3G C3N (some outgoing) ∧
      C3L ∈ Node.links C3G C3N (some C3Q)) ∧
    Node.links C3G C3N (some C3WR1) = Node.links C3G C3N (some C3WR2) :=
  ⟨C3_predicate_algebra.1 C3G C3N outgoing C3Q C3WR rfl rfl C3L,
   C3_predicate_algebra.2.2 C3G C3N C3instOf 5 C3WR1 C3WR2 rfl rfl⟩

/-
Node.find_nodes (sixx/node.py lines 193-216, six/node.py lines 169-192).
The walk keeps a visited set of object ids (links and nodes alike), a
todo stack of paths (Python list.pop() pops the last element), and
yields, for each link considered from the expanded node, first the path
extended by the link alone and then the path extended by the link and
the node at its other end, each only if the terminal element is not
rejected by stop and has not been visited; yields are emitted at the
moment of insertion, filtered by select, and drop the leading start
node.
-/

structure FState where
  visited : List Nat
  todo : List (List Entity)
  out : List (List Entity)
deriving DecidableEq

def FState.tryVisit (stop select : Option (Entity → Bool)) (nodes visit : List Entity)
    (s : FState) : FState :=
  match visit.getLast? with
  | none => s
  | some last =>
    if (match stop with
        | none => true
        | some f => !(f last)) && !(s.visited.contains last.eid) then
      { visited := s.visited ++ [last.eid]
        todo := s.todo ++ [nodes ++ visit]
        out := s.out ++
          (if (match select with
               | none => true
               | some f => f last) then [(nodes ++ visit).drop 1] else []) }
    else s

def FState.expand (G : Graph) (trav : Option PredC) (stop select : Option (Entity → Bool))
    (nodes : List Entity) (s : FState) : FState :=
  match nodes.getLast? with
  | none => s
  | some node =>
    (Node.links G node trav).foldl
      (fun s1 l =>
        FState.tryVisit stop select nodes [l, G.other l node]
          (FState.tryVisit stop select nodes [l] s1))
      s

def find_nodes_aux (G : Graph) (trav : Option PredC) (stop select : Option (Entity → Bool)) :
    Nat → FState → FState
  | 0, s => s
  | Nat.succ n, s =>
    match s.todo.getLast? with
    | none => s
    | some nodes =>
      find_nodes_aux G trav stop select n
        (FState.expand G trav stop select nodes { s with todo := s.todo.dropLast })

def find_nodes (G : Graph) (start : Entity) (trav : Option PredC)
    (stop select : Option (Entity → Bool)) (fuel : Nat) : List (List Entity) :=
  (find_nodes_aux G trav stop select fuel ⟨[start.eid], [[start]], []⟩).out

/-
Concrete graph for C4: start node 0 and node 1, joined by link 2 of link
class 7.  The traverse predicate accepts every link; stop is
instance_p(T) for the link class T = 7 of link 2, the documented way to
select the links not to follow.  The only route to node 1 is through the
stopped link 2, so under the claim the walk must yield no node at all;
the code nevertheless yields the path (link 2, node 1).
-/

def C4G : Graph := ⟨[⟨0, none, 0, none⟩, ⟨1, none, 0, none⟩, ⟨2, some (0, 1), 7, none⟩]⟩

def C4N : Entity := ⟨0, none, 0, none⟩

def C4M : Entity := ⟨1, none, 0, none⟩

def C4L : Entity := ⟨2, some (0, 1), 7, none⟩

def C4trav : PredC := .sel (fun _ _ _ => true)

def C4stop : Entity → Bool := fun e => e.cls == 7

/-- C4: evaluation of find_nodes on the concrete graph at the failing
input.  With traverse accepting every link and stop selecting exactly
the link 2 (the only link, hence the documented claim expects no node to
be reached), the code still walks through the stopped link and yields
the path (link 2, node 1), so node 1 appears as the terminal node of a
yielded tuple. -/
theorem C4_find_nodes_stopped_link :
    find_nodes C4G C4N (some C4trav) (some C4stop) none 10 = [[C4L, C4M]] := by
  rfl

/-
Node.derive_only_place (sixx/node.py lines 63-77): for each predicate in
turn, scan the matching links; the first link with a place fixes the
candidate, a later link whose only_place() differs resets the candidate
to None and breaks; the first predicate ending with a candidate wins.
The op field of a link entity holds the value of its only_place() call.
-/

def derive_scan : List Entity → Option Nat → Option Nat
  | [], place => place
  | l :: rest, place =>
    match place with
    | none => derive_scan rest l.op
    | some p => if l.op == some p then derive_scan rest (some p) else none

def derive_only_place (G : Graph) (x : Entity) : List PredC → Option Nat
  | [] => none
  | p :: rest =>
    match derive_scan (Node.links G x (some p)) none with
    | some pl => some pl
    | none => derive_only_place G x rest

/-
Runtime class tags for the link classes named by Person.only_place
(sixx/person.py lines 35-45) and a concrete isinstance relation where
class 5 (Has_fixed) is a subclass of HAS_PHONE, as in
six/telephone.py.
-/

def RESIDES_AT : Nat := 1

def HAS_POSTAL_ADDRESS : Nat := 2

def BELONGS_TO : Nat := 3

def HAS_PHONE : Nat := 4

def HAS_FIXED : Nat := 5

def out_is_link (instOf : Nat → Nat → Bool) (C : Nat) : PredC :=
  (PredC.pand outgoing (is_linkC instOf C)).getD outgoing

/-- Person.only_place, with the four predicates in the order the source
passes them to derive_only_place: Resides_at, Has_postal_address,
Belongs_to, Has_phone (sixx/person.py lines 42-45).  Note the docstring
of the same method promises residence, postal address, phone, family. -/
def Person.only_place (G : Graph) (x : Entity) (instOf : Nat → Nat → Bool) : Option Nat :=
  derive_only_place G x
    [out_is_link instOf RESIDES_AT,
     out_is_link instOf HAS_POSTAL_ADDRESS,
     out_is_link instOf BELONGS_TO,
     out_is_link instOf HAS_PHONE]

/-
Concrete graph for C5: person 0 with no residence and no postal address,
one Belongs_to link (id 3) to family 10 whose only_place() is place 70,
and one Has_fixed link (id 4) to telephone 20 whose only_place() is the
unambiguous place 80.
-/

def C5instOf : Nat → Nat → Bool := fun a b => a == b || (a == HAS_FIXED && b == HAS_PHONE)

def C5G : Graph :=
  ⟨[⟨0, none, 0, none⟩,
    ⟨10, none, 0, none⟩,
    ⟨20, none, 0, none⟩,
    ⟨3, some (0, 10), BELONGS_TO, some 70⟩,
    ⟨4, some (0, 20), HAS_FIXED, some 80⟩]⟩

def C5P : Entity := ⟨0, none, 0, none⟩

/-- C5: evaluation at the failing input.  The person has no residence
and no postal-address links; the phone links derive the single
unambiguous place 80, the family link the place 70.  The claim (and the
docstring of Person.only_place) requires the phone-derived place 80; the
code returns the family place 70, because the source passes Belongs_to
before Has_phone. -/
theorem C5_only_place_family_before_phone :
    Person.only_place C5G C5P C5instOf = some 70 ∧
    derive_only_place C5G C5P [out_is_link C5instOf HAS_PHONE] = some 80 ∧
    derive_only_place C5G C5P [out_is_link C5instOf RESIDES_AT] = none ∧
    derive_only_place C5G C5P [out_is_link C5instOf HAS_POSTAL_ADDRESS] = none := by
  refine ⟨rfl, rfl, rfl, rfl⟩

/-
The predicate expression grammar of six/expr.py (Predicate_Parser).  The
token stream holds the operator tokens -and, -or, -not, parentheses, and
atomic terms; _term wraps any other token in a node predicate.  A parse
value is either a node-predicate object (represented by the expression
that builds it) or a plain Python bool: the -not branch of _unary runs
the Python not operator on the operand, and a node_predicate instance
defines no truthiness hook, so it is always truthy and not yields the
bool False; not applied to a bool negates it.
-/

inductive Tok where
  | opAnd
  | opOr
  | opNot
  | parenOpen
  | parenClose
  | term (t : Nat)
deriving DecidableEq

def Tok.code : Tok → Nat
  | .opAnd => 0
  | .opOr => 1
  | .opNot => 2
  | .parenOpen => 3
  | .parenClose => 4
  | .term t => t + 5

/-- is_operator: true for the OP_ tokens, false for atomic terms. -/
def Tok.isOperator : Tok → Bool
  | .term _ => false
  | _ => true

inductive PredExpr where
  | term (t : Nat)
  | eand (a b : PredExpr)
  | eor (a b : PredExpr)
deriving DecidableEq

inductive PVal where
  | pred (e : PredExpr)
  | bool (b : Bool)
deriving DecidableEq

/-- The Python not operator on a parse value: a predicate object is
truthy, so not gives False; a bool is negated. -/
def PVal.notPy : PVal → PVal
  | .pred _ => .bool false
  | .bool b => .bool !b

/-- The Python & operator on parse values: two node predicates combine
with node_predicate.__and__; two bools combine bitwise; a mixed pair
raises TypeError, modelled as none. -/
def PVal.andPy : PVal → PVal → Option PVal
  | .pred a, .pred b => some (.pred (.eand a b))
  | .bool a, .bool b => some (.bool (a && b))
  | _, _ => none

/-- The Python | operator on parse values, as for andPy. -/
def PVal.orPy : PVal → PVal → Option PVal
  | .pred a, .pred b => some (.pred (.eor a b))
  | .bool a, .bool b => some (.bool (a || b))
  | _, _ => none

mutual

def exprOr : Nat → List Tok → Option (PVal × List Tok)
  | 0, _ => none
  | Nat.succ n, ts => do
    let (p, ts2) ← exprAnd n ts
    exprOrLoop n p ts2

def exprOrLoop : Nat → PVal → List Tok → Option (PVal × List Tok)
  | 0, _, _ => none
  | Nat.succ n, p, ts =>
    match ts with
    | t0 :: t1 :: rest =>
      if t0 = Tok.opOr then do
        let (p1, ts2) ← exprAnd n (t1 :: rest)
        let p2 ← p.orPy p1
        exprOrLoop n p2 ts2
      else some (p, ts)
    | _ => some (p, ts)

def exprAnd : Nat → List Tok → Option (PVal × List Tok)
  | 0, _ => none
  | Nat.succ n, ts => do
    let (p, ts2) ← exprUnary n ts
    exprAndLoop n p ts2

def exprAndLoop : Nat → PVal → List Tok → Option (PVal × List Tok)
  | 0, _, _ => none
  | Nat.succ n, p, ts =>
    match ts with
    | [] => some (p, [])
    | t0 :: rest =>
      if t0 = Tok.opAnd ∧ rest ≠ [] then do
        let (p1, ts2) ← exprUnary n rest
        let p2 ← p.andPy p1
        exprAndLoop n p2 ts2
      else if !t0.isOperator then do
        let (p1, ts2) ← exprUnary n (t0 :: rest)
        let p2 ← p.andPy p1
        exprAndLoop n p2 ts2
      else some (p, t0 :: rest)

def exprUnary : Nat → List Tok → Option (PVal × List Tok)
  | 0, _ => none
  | Nat.succ n, ts =>
    match ts with
    | [] => none
    | t0 :: t1 :: rest =>
      if t0 = Tok.opNot then do
        let (p, ts2) ← exprUnary n (t1 :: rest)
        some (p.notPy, ts2)
      else if t0 = Tok.parenOpen then do
        let (p, ts2) ← exprOr n (t1 :: rest)
        match ts2 with
        | Tok.parenClose :: ts3 => some (p, ts3)
        | _ => none
      else some (.pred (.term t0.code), t1 :: rest)
    | [t0] => some (.pred (.term t0.code), [])

end

/-- parse_predicate: parse the whole token list with _or and require no
remaining tokens (a remaining token is a spurious-token error, modelled
as none, as are the other ExprError and TypeError outcomes). -/
def parse_predicate (ts : List Tok) : Option PVal :=
  match ts with
  | [] => none
  | _ =>
    match exprOr (2 * ts.length + 2) ts with
    | some (p, []) => some p
    | _ => none

/-- C6: evaluation at the failing input.  Parsing the token list
minus-not followed by an atomic term returns the plain Python constant
False (not a node predicate at all): the -not branch of _unary applies
the Python not operator to the truthy node_predicate object instead of
its overloaded invert operator.  A doubled -not consequently yields the
constant True. -/
theorem C6_parse_not_returns_bool :
    parse_predicate [Tok.opNot, Tok.term 0] = some (PVal.bool false) ∧
    parse_predicate [Tok.opNot, Tok.opNot, Tok.term 0] = some (PVal.bool true) ∧
    parse_predicate [Tok.term 0] = some (PVal.pred (PredExpr.term 5)) := by
  refine ⟨rfl, rfl, rfl⟩

/-
The dataset model of six/parse.py.  A dataset is an ordered multi-map
from keys to values, each value optionally carrying a nested
sub-dataset; a value is an itext carrying an optional input location.
dataset_loc_memo wraps a dataset and records in its memo set the
location of every value fetched through get, mget, getvalue and
mgetvalue; sub-datasets returned by get/mget are wrapped sharing the
same memo set.
-/

structure DVal where
  text : Nat
  loc : Option Nat
deriving DecidableEq

inductive DSet where
  | mk : List (Nat × DVal × Option DSet) → DSet

def DSet.entries : DSet → List (Nat × DVal × Option DSet)
  | .mk es => es

mutual

def DSet.allVals : DSet → List DVal
  | .mk es => allValsEntries es

def allValsEntries : List (Nat × DVal × Option DSet) → List DVal
  | [] => []
  | (_, v, sub) :: rest =>
    v :: ((match sub with
           | some d => DSet.allVals d
           | none => []) ++ allValsEntries rest)

end

/-- all_locs: the locations of all the values in the dataset, including
all sub-datasets (locations that are None are skipped, as in
_iterlocs). -/
def DSet.allLocs (d : DSet) : List Nat :=
  d.allVals.filterMap (fun v => v.loc)

/-- self[key]: the list of (value, sub) pairs for the given key. -/
def DSet.valsFor (d : DSet) (k : Nat) : List (DVal × Option DSet) :=
  (d.entries.filter (fun e => e.1 == k)).map (fun e => e.2)

/-- The memo add of dataset_loc_memo.__add: record the location of a
fetched value when it has one. -/
def memoAdd (memo : List Nat) (v : DVal) : List Nat :=
  match v.loc with
  | some l => memo ++ [l]
  | none => memo

inductive FetchOp where
  | get (k : Nat)
  | mget (k : Nat)
  | getvalue (k : Nat)
  | mgetvalue (k : Nat)
deriving DecidableEq

/-- One fetch through the dataset_loc_memo wrapper.  get requires a
single value for the key (missing or duplicate keys raise InputError,
modelled as none); mget returns all the values (the default-argument
form returns the default on a missing key, fetching nothing, which
coincides with the empty list); getvalue additionally requires that no
sub-dataset is attached; mgetvalue requires that of every value.  The
returned values have their locations added to the memo; a raising call
adds nothing. -/
def fetchOp (d : DSet) (memo : List Nat) : FetchOp → Option (List DVal × List Nat)
  | .get k =>
    match d.valsFor k with
    | [(v, _)] => some ([v], memoAdd memo v)
    | _ => none
  | .mget k =>
    let vs := (d.valsFor k).map (fun p => p.1)
    some (vs, vs.foldl memoAdd memo)
  | .getvalue k =>
    match d.valsFor k with
    | [(v, none)] => some ([v], memoAdd memo v)
    | _ => none
  | .mgetvalue k =>
    if (d.valsFor k).all (fun p => p.2.isNone) then
      let vs := (d.valsFor k).map (fun p => p.1)
      some (vs, vs.foldl memoAdd memo)
    else none

/-- Addressing of a (possibly nested) sub-dataset: each step names the
key and the index of the value whose attached sub-dataset is entered.
Sub-datasets are reached in the source by holding the wrapped sub
returned by an earlier get/mget or by indexing, which shares the memo
and adds nothing by itself. -/
def DSet.navigate : DSet → List (Nat × Nat) → Option DSet
  | d, [] => some d
  | d, (k, i) :: rest =>
    match (d.valsFor k)[i]? with
    | some (_, some sub) => sub.navigate rest
    | _ => none

/-- A fetch script: a sequence of fetches, each applied to the
sub-dataset reached by its path from the root.  Returns the fetched
values and the final memo.  A raising fetch aborts the whole parse of
the block, modelled as none. -/
def runScript (root : DSet) (memo : List Nat) :
    List (List (Nat × Nat) × FetchOp) → Option (List DVal × List Nat)
  | [] => some ([], memo)
  | (path, op) :: rest =>
    match root.navigate path with
    | none => none
    | some sub =>
      match fetchOp sub memo op with
      | none => none
      | some (vs, memo2) =>
        match runScript root memo2 rest with
        | none => none
        | some (vs2, memo3) => some (vs ++ vs2, memo3)

/-- The spurious-line check at the end of ModelParser._parse_data_block:
collect, over all the memo-wrapped parts of the block, the locations
present in the part but absent from its memo, and raise the
spurious-line InputError at the smallest such location (the source
raises at the first location in sorted order). -/
def missed_locs (parts : List (DSet × List Nat)) : List Nat :=
  parts.flatMap (fun pm => pm.1.allLocs.filter (fun l => !(pm.2.contains l)))

def spurious_check (parts : List (DSet × List Nat)) : Except Nat Unit :=
  match (missed_locs parts).min? with
  | none => .ok ()
  | some l => .error l

theorem foldl_memoAdd (vs : List DVal) (memo : List Nat) :
    vs.foldl memoAdd memo = memo ++ vs.filterMap (fun v => v.loc) := by
  induction vs generalizing memo with
  | nil => simp
  | cons v rest ih =>
    simp only [List.foldl_cons, ih, List.filterMap_cons]
    cases h : v.loc <;> simp [memoAdd, h]

theorem fetchOp_memo {d : DSet} {memo : List Nat} {op : FetchOp} {vs : List DVal}
    {m2 : List Nat} (h : fetchOp d memo op = some (vs, m2)) :
    m2 = memo ++ vs.filterMap (fun v => v.loc) := by
  cases op with
  | get k =>
    simp only [fetchOp] at h
    split at h
    · rename_i v sub heq
      injection h with h
      rw [Prod.mk.injEq] at h
      obtain ⟨h1, h2⟩ := h
      subst h1
      subst h2
      cases hl : v.loc <;> simp [memoAdd, hl]
    · cases h
  | mget k =>
    simp only [fetchOp] at h
    injection h with h
    rw [Prod.mk.injEq] at h
    obtain ⟨h1, h2⟩ := h
    subst h1
    subst h2
    exact foldl_memoAdd _ _
  | getvalue k =>
    simp only [fetchOp] at h
    split at h
    · rename_i v heq
      injection h with h
      rw [Prod.mk.injEq] at h
      obtain ⟨h1, h2⟩ := h
      subst h1
      subst h2
      cases hl : v.loc <;> simp [memoAdd, hl]
    · cases h
  | mgetvalue k =>
    simp only [fetchOp] at h
    split at h
    · injection h with h
      rw [Prod.mk.injEq] at h
      obtain ⟨h1, h2⟩ := h
      subst h1
      subst h2
      exact foldl_memoAdd _ _
    · cases h

theorem runScript_memo :
    ∀ (s : List (List (Nat × Nat) × FetchOp)) (root : DSet) (memo0 : List Nat)
      (vs : List DVal) (memo : List Nat),
    runScript root memo0 s = some (vs, memo) →
    memo = memo0 ++ vs.filterMap (fun v => v.loc) := by
  intro s
  induction s with
  | nil =>
    intro root memo0 vs memo h
    simp only [runScript] at h
    injection h with h
    rw [Prod.mk.injEq] at h
    obtain ⟨h1, h2⟩ := h
    subst h1
    subst h2
    simp
  | cons hd rest ih =>
    intro root memo0 vs memo h
    obtain ⟨path, op⟩ := hd
    simp only [runScript] at h
    split at h
    · cases h
    · rename_i sub hnav
      split at h
      · cases h
      · rename_i vs1 m1 hf
        split at h
        · cases h
        · rename_i vs2 m3 hr
          injection h with h
          rw [Prod.mk.injEq] at h
          obtain ⟨h1, h2⟩ := h
          subst h1
          subst h2
          have e1 := fetchOp_memo hf
          have e2 := ih root m1 vs2 m3 hr
          subst e1
          rw [e2]
          simp

theorem allValsEntries_nil : allValsEntries [] = [] := by
  rw [allValsEntries.eq_def]

theorem allValsEntries_cons (k0 : Nat) (v0 : DVal) (sub0 : Option DSet)
    (rest : List (Nat × DVal × Option DSet)) :
    allValsEntries ((k0, v0, sub0) :: rest) =
      v0 :: ((match sub0 with | some d => d.allVals | none => []) ++ allValsEntries rest) := by
  rw [allValsEntries.eq_def]

theorem allVals_mk (es : List (Nat × DVal × Option DSet)) :
    (DSet.mk es).allVals = allValsEntries es := by
  rw [DSet.allVals.eq_def]

theorem entry_mem_allVals :
    ∀ {es : List (Nat × DVal × Option DSet)} {e : Nat × DVal × Option DSet}, e ∈ es →
      e.2.1 ∈ allValsEntries es ∧
      ∀ d2, e.2.2 = some d2 → ∀ w ∈ d2.allVals, w ∈ allValsEntries es := by
  intro es
  induction es with
  | nil => intro e h; cases h
  | cons hd rest ih =>
    intro e h
    obtain ⟨k0, v0, sub0⟩ := hd
    rcases List.mem_cons.mp h with rfl | hmem
    · constructor
      · simp [allValsEntries_cons]
      · intro d2 hd2 w hw
        simp only at hd2
        subst hd2
        simp [allValsEntries_cons, hw]
    · obtain ⟨h1, h2⟩ := ih hmem
      refine ⟨?_, ?_⟩
      · simp only [allValsEntries_cons, List.mem_cons, List.mem_append]
        right
        right
        exact h1
      · intro d2 hd2 w hw
        simp only [allValsEntries_cons, List.mem_cons, List.mem_append]
        right
        right
        exact h2 d2 hd2 w hw

theorem valsFor_fst_mem_allVals {d : DSet} {k : Nat} {v : DVal} {sub : Option DSet}
    (h : (v, sub) ∈ d.valsFor k) : v ∈ d.allVals := by
  obtain ⟨es⟩ := d
  simp only [DSet.valsFor, DSet.entries, List.mem_map, List.mem_filter] at h
  obtain ⟨e, ⟨he, -⟩, h2⟩ := h
  rw [allVals_mk]
  have := (entry_mem_allVals he).1
  rw [h2] at this
  exact this

theorem valsFor_sub_allVals {d : DSet} {k : Nat} {v : DVal} {d2 : DSet}
    (h : (v, some d2) ∈ d.valsFor k) : ∀ w ∈ d2.allVals, w ∈ d.allVals := by
  obtain ⟨es⟩ := d
  simp only [DSet.valsFor, DSet.entries, List.mem_map, List.mem_filter] at h
  obtain ⟨e, ⟨he, -⟩, h2⟩ := h
  have h3 := (entry_mem_allVals he).2
  intro w hw
  rw [allVals_mk]
  exact h3 d2 (by rw [h2]) w hw

theorem navigate_allVals :
    ∀ (path : List (Nat × Nat)) (d sub : DSet), d.navigate path = some sub →
      ∀ w ∈ sub.allVals, w ∈ d.allVals := by
  intro path
  induction path with
  | nil =>
    intro d sub h
    simp only [DSet.navigate] at h
    injection h with h
    subst h
    exact fun w hw => hw
  | cons st rest ih =>
    intro d sub h
    obtain ⟨k, i⟩ := st
    simp only [DSet.navigate] at h
    split at h
    · rename_i v s1 hget
      intro w hw
      have hmem : (v, some s1) ∈ d.valsFor k := List.getElem?_mem hget
      exact valsFor_sub_allVals hmem w (ih s1 sub h w hw)
    · cases h

theorem fetchOp_vals {d : DSet} {memo : List Nat} {op : FetchOp} {vs : List DVal}
    {m2 : List Nat} (h : fetchOp d memo op = some (vs, m2)) :
    ∀ v ∈ vs, v ∈ d.allVals := by
  cases op with
  | get k =>
    simp only [fetchOp] at h
    split at h
    · rename_i v sub heq
      injection h with h
      rw [Prod.mk.injEq] at h
      obtain ⟨h1, -⟩ := h
      subst h1
      intro w hw
      rw [List.mem_singleton] at hw
      subst hw
      exact valsFor_fst_mem_allVals (by rw [heq]; exact List.mem_singleton_self _)
    · cases h
  | mget k =>
    simp only [fetchOp] at h
    injection h with h
    rw [Prod.mk.injEq] at h
    obtain ⟨h1, -⟩ := h
    subst h1
    intro w hw
    rw [List.mem_map] at hw
    obtain ⟨p, hp, rfl⟩ := hw
    obtain ⟨pv, psub⟩ := p
    exact valsFor_fst_mem_allVals hp
  | getvalue k =>
    simp only [fetchOp] at h
    split at h
    · rename_i v heq
      injection h with h
      rw [Prod.mk.injEq] at h
      obtain ⟨h1, -⟩ := h
      subst h1
      intro w hw
      rw [List.mem_singleton] at hw
      subst hw
      exact valsFor_fst_mem_allVals (by rw [heq]; exact List.mem_singleton_self _)
    · cases h
  | mgetvalue k =>
    simp only [fetchOp] at h
    split at h
    · injection h with h
      rw [Prod.mk.injEq] at h
      obtain ⟨h1, -⟩ := h
      subst h1
      intro w hw
      rw [List.mem_map] at hw
      obtain ⟨p, hp, rfl⟩ := hw
      obtain ⟨pv, psub⟩ := p
      exact valsFor_fst_mem_allVals hp
    · cases h

theorem runScript_vals :
    ∀ (s : List (List (Nat × Nat) × FetchOp)) (root : DSet) (memo0 : List Nat)
      (vs : List DVal) (memo : List Nat),
    runScript root memo0 s = some (vs, memo) →
    ∀ v ∈ vs, v ∈ root.allVals := by
  intro s
  induction s with
  | nil =>
    intro root memo0 vs memo h
    simp only [runScript] at h
    injection h with h
    rw [Prod.mk.injEq] at h
    obtain ⟨h1, -⟩ := h
    subst h1
    intro v hv
    cases hv
  | cons hd rest ih =>
    intro root memo0 vs memo h
    obtain ⟨path, op⟩ := hd
    simp only [runScript] at h
    split at h
    · cases h
    · rename_i sub hnav
      split at h
      · cases h
      · rename_i vs1 m1 hf
        split at h
        · cases h
        · rename_i vs2 m3 hr
          injection h with h
          rw [Prod.mk.injEq] at h
          obtain ⟨h1, -⟩ := h
          subst h1
          intro v hv
          rw [List.mem_append] at hv
          rcases hv with hv | hv
          · exact navigate_allVals path root sub hnav v (fetchOp_vals hf v hv)
          · exact ih root m1 vs2 m3 hr v hv

theorem nat_contains_iff {xs : List Nat} {a : Nat} : xs.contains a = true ↔ a ∈ xs :=
  List.elem_iff

theorem missed_locs_nil_iff (parts : List (DSet × List Nat)) :
    missed_locs parts = [] ↔ ∀ pm ∈ parts, ∀ l ∈ (pm.1 : DSet).allLocs, l ∈ pm.2 := by
  unfold missed_locs
  rw [List.flatMap_eq_nil_iff]
  constructor
  · intro h pm hpm l hl
    have h2 := h pm hpm
    rw [List.filter_eq_nil_iff] at h2
    have h3 := h2 l hl
    cases hb : List.contains pm.2 l with
    | false =>
      exfalso
      apply h3
      rw [hb]
      rfl
    | true => exact nat_contains_iff.mp hb
  · intro h pm hpm
    rw [List.filter_eq_nil_iff]
    intro l hl
    have hc := nat_contains_iff.mpr (h pm hpm l hl)
    rw [hc]
    simp

/-- C7.  Memo completeness of the dataset_loc_memo wrapper and the
spurious-line check.  First, after any successful fetch script the memo
holds exactly the locations of the fetched values (in fetch order,
appended to the initial memo).  Second, fetching from an empty memo, and
provided every value in the dataset carries a location and locations
identify values (as file positions do), the set all_locs() minus the
memo is empty precisely when every value of the dataset (sub-datasets
included) was fetched.  Third, the final check of _parse_data_block
succeeds precisely when no part has a missed location, and otherwise
raises the spurious-line error carrying the smallest missed location,
which is the location of a value that was never fetched. -/
theorem C7_memo_completeness :
    (∀ (root : DSet) (memo0 : List Nat) (s : List (List (Nat × Nat) × FetchOp))
       (vs : List DVal) (memo : List Nat),
      runScript root memo0 s = some (vs, memo) →
      memo = memo0 ++ vs.filterMap (fun v => v.loc)) ∧
    (∀ (root : DSet) (s : List (List (Nat × Nat) × FetchOp)) (vs : List DVal)
       (memo : List Nat),
      runScript root [] s = some (vs, memo) →
      (∀ v ∈ root.allVals, (v.loc).isSome = true) →
      (∀ v ∈ root.allVals, ∀ w ∈ root.allVals, v.loc = w.loc → v = w) →
      ((root.allLocs.filter (fun l => !(memo.contains l))) = [] ↔
        ∀ v ∈ root.allVals, v ∈ vs)) ∧
    (∀ parts, spurious_check parts = Except.ok () ↔
      ∀ pm ∈ parts, ∀ l ∈ (pm.1 : DSet).allLocs, l ∈ pm.2) ∧
    (∀ parts l, spurious_check parts = Except.error l →
      (∃ pm ∈ parts, l ∈ (pm.1 : DSet).allLocs ∧ l ∉ pm.2) ∧
      ∀ pm ∈ parts, ∀ l2 ∈ (pm.1 : DSet).allLocs, l2 ∉ pm.2 → l ≤ l2) := by
  refine ⟨?memo, ?complete, ?checkok, ?checkerr⟩
  case memo =>
    intro root memo0 s vs memo h
    exact runScript_memo s root memo0 vs memo h
  case complete =>
    intro root s vs memo hrun hsome hinj
    have hm : memo = vs.filterMap (fun v => v.loc) := by
      have := runScript_memo s root [] vs memo hrun
      simpa using this
    have hvals := runScript_vals s root [] vs memo hrun
    constructor
    · intro hemp v hv
      obtain ⟨l, hl⟩ := Option.isSome_iff_exists.mp (hsome v hv)
      have hlin : l ∈ root.allLocs := List.mem_filterMap.mpr ⟨v, hv, hl⟩
      have hcont : memo.contains l = true := by
        cases hb : memo.contains l
        · exfalso
          have hmem2 : l ∈ root.allLocs.filter (fun l2 => !(memo.contains l2)) :=
            List.mem_filter.mpr ⟨hlin, by rw [hb]; rfl⟩
          rw [hemp] at hmem2
          cases hmem2
        · rfl
      have hlm : l ∈ memo := nat_contains_iff.mp hcont
      rw [hm] at hlm
      obtain ⟨w, hw, hwl⟩ := List.mem_filterMap.mp hlm
      have hwv : w = v := hinj w (hvals w hw) v hv (by rw [hwl, hl])
      rw [← hwv]
      exact hw
    · intro hall
      apply List.filter_eq_nil_iff.mpr
      intro l hlin
      obtain ⟨v, hv, hl⟩ := List.mem_filterMap.mp hlin
      have hvin : v ∈ vs := hall v hv
      have hlm : l ∈ memo := by
        rw [hm]
        exact List.mem_filterMap.mpr ⟨v, hvin, hl⟩
      rw [nat_contains_iff.mpr hlm]
      simp
  case checkok =>
    intro parts
    constructor
    · intro hok
      unfold spurious_check at hok
      split at hok
      · rename_i hmin
        have hnil := List.min?_eq_none_iff.mp hmin
        rw [missed_locs_nil_iff] at hnil
        exact hnil
      · cases hok
    · intro h
      unfold spurious_check
      have hnil : missed_locs parts = [] := (missed_locs_nil_iff parts).mpr h
      rw [hnil]
      rfl
  case checkerr =>
    intro parts l herr
    unfold spurious_check at herr
    split at herr
    · cases herr
    · rename_i l2 hmin
      injection herr with he
      subst he
      rw [List.min?_eq_some_iff] at hmin
      · obtain ⟨hmem, hle⟩ := hmin
        constructor
        · obtain ⟨pm, hpm, hfl⟩ := List.mem_flatMap.mp hmem
          rw [List.mem_filter] at hfl
          refine ⟨pm, hpm, hfl.1, ?_⟩
          intro hc
          have h4 := nat_contains_iff.mpr hc
          rw [h4] at hfl
          simp at hfl
        · intro pm hpm lx hlx hnot
          apply hle
          apply List.mem_flatMap.mpr
          refine ⟨pm, hpm, List.mem_filter.mpr ⟨hlx, ?_⟩⟩
          cases hb : List.contains pm.2 lx
          · rfl
          · exact absurd (nat_contains_iff.mp hb) hnot
      · intro x
        exact Nat.le_refl x
      · intro x y
        exact min_choice x y
      · intro x y c
        exact Nat.le_min

/-
Concrete dataset for the C7 witness: two top-level values (locations 10
and 20), the second carrying a sub-dataset with one value (location 30);
the script fetches all three through getvalue, get and a sub-dataset
getvalue.
-/

def C7root : DSet :=
  DSet.mk [(1, ⟨100, some 10⟩, none),
           (2, ⟨200, some 20⟩, some (DSet.mk [(3, ⟨300, some 30⟩, none)]))]

def C7script : List (List (Nat × Nat) × FetchOp) :=
  [([], .getvalue 1), ([], .get 2), ([(2, 0)], .getvalue 3)]

def C7vs : List DVal := [⟨100, some 10⟩, ⟨200, some 20⟩, ⟨300, some 30⟩]

def C7memo : List Nat := [10, 20, 30]

def C7parts : List (DSet × List Nat) := [(C7root, [10])]

/-- Witness for C7: the completeness conjunct applied to the concrete
dataset with a script fetching every value, and the error conjunct
applied to a part whose memo misses the locations 20 and 30, where the
check reports the smallest missed location 20. -/
theorem C7_memo_completeness_witness :
    ((C7root.allLocs.filter (fun l => !(C7memo.contains l))) = [] ↔
      ∀ v ∈ C7root.allVals, v ∈ C7vs) ∧
    ((∃ pm ∈ C7parts, 20 ∈ (pm.1 : DSet).allLocs ∧ 20 ∉ pm.2) ∧
      ∀ pm ∈ C7parts, ∀ l2 ∈ (pm.1 : DSet).allLocs, l2 ∉ pm.2 → 20 ≤ l2) :=
  ⟨C7_memo_completeness.2.1 C7root C7script C7vs C7memo rfl (by decide) (by decide),
   C7_memo_completeness.2.2.2 C7parts 20 rfl⟩

/-
Has_department (six/org.py lines 117-133): the constructor asserts its
endpoints are a Company and a Department, then lists the incoming
Has_department links of the department and raises before calling the
Link constructor when any exists; only then is the link attached to both
endpoints.  Link.__init__ itself (six/node.py lines 205-215,
sixx/node.py lines 229-240) checks only that the endpoints are Node
instances and the timestamp is a date: nothing prevents equal endpoints.
-/

def COMPANY : Nat := 21

def DEPARTMENT : Nat := 22

def HAS_DEPARTMENT : Nat := 23

/-- Link.__init__: set node1 and node2 and attach the new link to the
link sets of both endpoint nodes (here by extending the entity list,
from which incident link sets are derived). -/
def Link.construct (G : Graph) (lid n1 n2 cls : Nat) : Graph :=
  ⟨G.entities ++ [⟨lid, some (n1, n2), cls, none⟩]⟩

/-- The duplicate check of Has_department.__init__:
dept.links(incoming and is_link(Has_department)). -/
def hd_dups (G : Graph) (dept : Entity) : List Entity :=
  (G.incident dept).filter (fun l =>
    (match l.ends with
     | some p => p.2 == dept.eid
     | none => false) && l.cls == HAS_DEPARTMENT)

def Has_department.construct (G : Graph) (lid company dept : Nat) : Except String Graph :=
  if (G.entityAt company).cls ≠ COMPANY then .error "assert isinstance(company, Company)"
  else if (G.entityAt dept).cls ≠ DEPARTMENT then .error "assert isinstance(dept, Department)"
  else if hd_dups G (G.entityAt dept) ≠ [] then .error "is already a department"
  else .ok (Link.construct G lid company dept HAS_DEPARTMENT)

inductive BuildOp where
  | newNode (eid cls : Nat)
  | newLink (lid a b cls : Nat)
  | newHasDept (lid company dept : Nat)
deriving DecidableEq

/-- A build sequence: each operation runs the corresponding constructor
(a Python instantiation of Has_department runs only through its own
constructor, so newLink covers the other Link classes). -/
def run_build : List BuildOp → Graph → Except String Graph
  | [], G => .ok G
  | BuildOp.newNode eid cls :: rest, G =>
    run_build rest ⟨G.entities ++ [⟨eid, none, cls, none⟩]⟩
  | BuildOp.newLink lid a b cls :: rest, G =>
    run_build rest (Link.construct G lid a b cls)
  | BuildOp.newHasDept lid c d :: rest, G =>
    match Has_department.construct G lid c d with
    | .error e => .error e
    | .ok G2 => run_build rest G2

/-- The incoming Has_department links of the node id i, over the whole
entity list. -/
def hd_incoming (G : Graph) (i : Nat) : List Entity :=
  G.entities.filter (fun l =>
    (match l.ends with
     | some p => p.2 == i
     | none => false) && l.cls == HAS_DEPARTMENT)

theorem entityAt_eid (G : Graph) (i : Nat) : (G.entityAt i).eid = i := by
  unfold Graph.entityAt
  cases hf : G.entities.find? (fun e => e.eid == i) with
  | none => rfl
  | some e =>
    have hp := List.find?_some hf
    simp only [beq_iff_eq] at hp
    simp [hp]

theorem hd_dups_eq (G : Graph) (d : Entity) : hd_dups G d = hd_incoming G d.eid := by
  unfold hd_dups hd_incoming Graph.incident
  rw [List.filter_filter]
  apply List.filter_congr
  intro a _
  cases hE : a.ends with
  | none => rfl
  | some p =>
    simp only [hE]
    cases hp2 : (p.2 == d.eid) <;>
      cases hp1 : (p.1 == d.eid) <;>
      cases hc : (a.cls == HAS_DEPARTMENT) <;>
      simp [hp1, hp2, hc]

theorem hd_incoming_node (G : Graph) (eid cls i : Nat) :
    hd_incoming ⟨G.entities ++ [⟨eid, none, cls, none⟩]⟩ i = hd_incoming G i := by
  unfold hd_incoming
  rw [List.filter_append]
  simp

theorem hd_incoming_link (G : Graph) (lid a b cls i : Nat) (h : cls ≠ HAS_DEPARTMENT) :
    hd_incoming (Link.construct G lid a b cls) i = hd_incoming G i := by
  unfold hd_incoming Link.construct
  rw [List.filter_append]
  have hc : (cls == HAS_DEPARTMENT) = false := beq_eq_false_iff_ne.mpr h
  simp [hc]

theorem hd_incoming_hd (G : Graph) (lid c d i : Nat) :
    hd_incoming (Link.construct G lid c d HAS_DEPARTMENT) i =
      hd_incoming G i ++
        (if d = i then [⟨lid, some (c, d), HAS_DEPARTMENT, none⟩] else []) := by
  unfold hd_incoming Link.construct
  rw [List.filter_append]
  congr 1
  by_cases hdi : d = i
  · simp [hdi]
  · have : (d == i) = false := beq_eq_false_iff_ne.mpr hdi
    simp [this, hdi]

theorem run_build_inv :
    ∀ (ops : List BuildOp) (G0 G : Graph),
    (∀ lid a b cls, BuildOp.newLink lid a b cls ∈ ops → cls ≠ HAS_DEPARTMENT) →
    (∀ i, (hd_incoming G0 i).length ≤ 1) →
    run_build ops G0 = .ok G →
    ∀ i, (hd_incoming G i).length ≤ 1 := by
  intro ops
  induction ops with
  | nil =>
    intro G0 G hcls hinv hrun
    simp only [run_build] at hrun
    injection hrun with hrun
    subst hrun
    exact hinv
  | cons op rest ih =>
    intro G0 G hcls hinv hrun
    have hcls2 : ∀ lid a b cls, BuildOp.newLink lid a b cls ∈ rest → cls ≠ HAS_DEPARTMENT :=
      fun lid a b cls hm => hcls lid a b cls (List.mem_cons_of_mem _ hm)
    cases op with
    | newNode eid cls =>
      simp only [run_build] at hrun
      refine ih _ G hcls2 ?_ hrun
      intro i
      rw [hd_incoming_node]
      exact hinv i
    | newLink lid a b cls =>
      simp only [run_build] at hrun
      refine ih _ G hcls2 ?_ hrun
      intro i
      rw [hd_incoming_link G0 lid a b cls i
            (hcls lid a b cls (List.mem_cons_self _ _))]
      exact hinv i
    | newHasDept lid c d =>
      simp only [run_build] at hrun
      split at hrun
      · cases hrun
      · rename_i G2 heq
        unfold Has_department.construct at heq
        split at heq
        · cases heq
        · split at heq
          · cases heq
          · split at heq
            · cases heq
            · rename_i hcomp hdept hdup
              injection heq with heq
              subst heq
              rw [not_not] at hdup
              rw [hd_dups_eq, entityAt_eid] at hdup
              refine ih _ G hcls2 ?_ hrun
              intro i
              rw [hd_incoming_hd]
              by_cases hdi : d = i
              · rw [if_pos hdi, ← hdi, hdup]
                simp
              · rw [if_neg hdi]
                simpa using hinv i

/-- C8.  First, constructing a Has_department link to a department that
already has an incoming Has_department link returns an error before the
link is attached (the duplicate check precedes the Link constructor
call, so the link sets of both endpoints, derived from the unchanged
graph, are unmodified).  Second, in any graph built through these
constructors from the empty graph (the newLink operations covering the
Link classes other than Has_department), every entity has at most one
incoming Has_department link. -/
theorem C8_has_department_unique :
    (∀ (G : Graph) (lid company dept : Nat),
      hd_dups G (G.entityAt dept) ≠ [] →
      ∃ msg, Has_department.construct G lid company dept = Except.error msg) ∧
    (∀ (ops : List BuildOp) (G : Graph),
      (∀ lid a b cls, BuildOp.newLink lid a b cls ∈ ops → cls ≠ HAS_DEPARTMENT) →
      run_build ops ⟨[]⟩ = .ok G →
      ∀ dept ∈ G.entities, (hd_dups G dept).length ≤ 1) := by
  constructor
  · intro G lid company dept hdup
    unfold Has_department.construct
    by_cases h1 : (G.entityAt company).cls ≠ COMPANY
    · exact ⟨_, if_pos h1⟩
    · rw [if_neg h1]
      by_cases h2 : (G.entityAt dept).cls ≠ DEPARTMENT
      · exact ⟨_, if_pos h2⟩
      · rw [if_neg h2]
        exact ⟨_, if_pos hdup⟩
  · intro ops G hcls hrun dept hdept
    rw [hd_dups_eq]
    refine run_build_inv ops ⟨[]⟩ G hcls ?_ hrun dept.eid
    intro i
    simp [hd_incoming]

/-
Witness data for C8: build a company (id 1), a department (id 2) and the
Has_department link between them; a second Has_department to the same
department is refused on the resulting graph.
-/

def C8ops : List BuildOp :=
  [BuildOp.newNode 1 COMPANY, BuildOp.newNode 2 DEPARTMENT, BuildOp.newHasDept 10 1 2]

def C8G : Graph := (run_build C8ops ⟨[]⟩).toOption.getD ⟨[]⟩

/-- Witness for C8: the build sequence C8ops succeeds and every entity
of the resulting graph has at most one incoming Has_department link;
and on that graph a further Has_department link to the department is
refused with an error. -/
theorem C8_has_department_unique_witness :
    (∀ dept ∈ C8G.entities, (hd_dups C8G dept).length ≤ 1) ∧
    (∃ msg, Has_department.construct C8G 11 1 2 = Except.error msg) :=
  ⟨C8_has_department_unique.2 C8ops C8G
     (by intro lid a b cls hm; simp [C8ops] at hm) rfl,
   C8_has_department_unique.1 C8G 11 1 2 (by decide)⟩

/-
C9: Link.__init__ performs no check that its two endpoints differ, so a
node can be linked to itself.
-/

def C9G : Graph := ⟨[⟨0, none, 0, none⟩]⟩

def C9N : Entity := ⟨0, none, 0, none⟩

def C9L : Entity := ⟨1, some (0, 0), 9, none⟩

/-- C9 counterexample: constructing Link(n, n) on the one-node graph
succeeds, and the link set of the node then holds a link with both
endpoints equal to the node, refuting both parts of the claim. -/
theorem C9_counterexample :
    (Link.construct C9G 1 0 0 9).incident C9N = [C9L] ∧
    C9L.ends = some (C9N.eid, C9N.eid) := by
  refine ⟨rfl, rfl⟩

/-- C9 (amended): Link construction does not prevent self-links.  For
any graph and any node of it, constructing Link(n, n) succeeds and
attaches to the node a link having both endpoints equal to that node;
the no-self-link property of the claim is not enforced by the
constructors. -/
theorem C9_self_link :
    ∀ (G : Graph) (lid n cls : Nat) (e : Entity), e ∈ G.entities → e.eid = n →
      ∃ l ∈ (Link.construct G lid n n cls).incident e, l.ends = some (n, n) := by
  intro G lid n cls e he hn
  refine ⟨⟨lid, some (n, n), cls, none⟩, ?_, rfl⟩
  unfold Link.construct Graph.incident
  rw [List.filter_append]
  apply List.mem_append.mpr
  right
  simp [hn]

/-- Witness for C9: the amended statement applied to the one-node
graph. -/
theorem C9_self_link_witness :
    ∃ l ∈ (Link.construct C9G 1 0 0 9).incident C9N, l.ends = some (0, 0) :=
  C9_self_link C9G 1 0 9 C9N (by decide) rfl

/-
Model.find and the suspend-and-retry driver of six/model.py.  Registered
objects carry a runtime type and the set of texts their matches() method
accepts; sub is the issubclass relation on type tags.  One iteration of
the while-True loop of find scans all registered objects: the first
match is remembered, a second match raises the ambiguous LookupError at
once; with no match the tasklet suspends, unless _no_suspend is set, in
which case the not-found LookupError is raised.
-/

structure RegObj where
  oid : Nat
  typ : Nat
  texts : List Nat
deriving DecidableEq

def objMatches (o : RegObj) (text : Nat) : Bool := o.texts.contains text

def scan_find (sub : Nat → Nat → Bool) (typ text : Nat) :
    List RegObj → Option RegObj → Option (Option RegObj)
  | [], found => some found
  | o :: rest, found =>
    if sub o.typ typ && objMatches o text then
      match found with
      | none => scan_find sub typ text rest (some o)
      | some _ => none
    else scan_find sub typ text rest found

inductive FindOutcome where
  | found (o : RegObj)
  | ambiguous
  | suspend
  | notFound
deriving DecidableEq

/-- One iteration of the while-True loop of Model.find: the scan result
none is the ambiguous raise; an object found is returned; no object
found suspends, or raises not-found when _no_suspend is set. -/
def find_step (sub : Nat → Nat → Bool) (reg : List RegObj) (noSuspend : Bool)
    (typ text : Nat) : FindOutcome :=
  match scan_find sub typ text reg none with
  | none => .ambiguous
  | some (some o) => .found o
  | some none => if noSuspend then .notFound else .suspend

inductive PErr where
  | ambiguousErr
  | notFoundErr
deriving DecidableEq

/-- A suspended data-block parsing task: the references it still has to
resolve, in program order (each a requested type and a text), and the
objects it registers when it completes. -/
structure PTask where
  refs : List (Nat × Nat)
  defs : List RegObj
deriving DecidableEq

/-- Run a woken task: resolve the leading reference with find; on
success continue with the remaining references; the ambiguous or
not-found LookupError propagates; with no match in suspend mode the
task parks itself again with the same references.  A completing task
commits its registrations. -/
def wake_task (sub : Nat → Nat → Bool) (reg : List RegObj) (noSuspend : Bool) :
    List (Nat × Nat) → List RegObj → Except PErr (PTask ⊕ List RegObj)
  | [], ds => .ok (.inr (reg ++ ds))
  | r :: rest, ds =>
    match find_step sub reg noSuspend r.1 r.2 with
    | .found _ => wake_task sub reg noSuspend rest ds
    | .ambiguous => .error .ambiguousErr
    | .notFound => .error .notFoundErr
    | .suspend => .ok (.inl ⟨r :: rest, ds⟩)

structure PState where
  registered : List RegObj
  suspended : List PTask
  noSuspend : Bool
deriving DecidableEq

/-- One wake cycle of finish_parsing: wake every task of the retry set
in turn; re-suspending tasks are collected into the suspended set,
completing tasks update the registry seen by the later wakes of the
same cycle, a raising task aborts the run. -/
def run_cycle (sub : Nat → Nat → Bool) : List PTask → PState → Except PErr PState
  | [], s => .ok s
  | t :: rest, s =>
    match wake_task sub s.registered s.noSuspend t.refs t.defs with
    | .error e => .error e
    | .ok (.inl t2) => run_cycle sub rest { s with suspended := s.suspended ++ [t2] }
    | .ok (.inr reg2) => run_cycle sub rest { s with registered := reg2 }

/-- Model.finish_parsing with explicit fuel: while tasks are suspended,
take the suspended set as the retry set, empty the suspended set, run a
wake cycle, and set the no-suspend flag when the cycle ends with as many
suspended tasks as it started with. -/
def finish_parsing (sub : Nat → Nat → Bool) : Nat → PState → Option (Except PErr (List RegObj))
  | 0, _ => none
  | Nat.succ n, s =>
    if s.suspended.isEmpty then some (.ok s.registered)
    else
      match run_cycle sub s.suspended { s with suspended := [] } with
      | .error e => some (.error e)
      | .ok s2 =>
        finish_parsing sub n
          (if s2.suspended.length = s.suspended.length then { s2 with noSuspend := true } else s2)

theorem scan_find_acc (sub : Nat → Nat → Bool) (typ text : Nat) :
    ∀ (l : List RegObj) (o : RegObj),
      scan_find sub typ text l (some o) =
        if l.filter (fun x => sub x.typ typ && objMatches x text) = [] then some (some o)
        else none := by
  intro l
  induction l with
  | nil => intro o; simp [scan_find]
  | cons x rest ih =>
    intro o
    simp only [scan_find, List.filter_cons]
    cases hx : (sub x.typ typ && objMatches x text)
    · simp [ih o]
    · simp

theorem scan_find_none (sub : Nat → Nat → Bool) (typ text : Nat) :
    ∀ (l : List RegObj),
      scan_find sub typ text l none =
        match l.filter (fun x => sub x.typ typ && objMatches x text) with
        | [] => some none
        | [o] => some (some o)
        | _ => none := by
  intro l
  induction l with
  | nil => simp [scan_find]
  | cons x rest ih =>
    simp only [scan_find, List.filter_cons]
    cases hx : (sub x.typ typ && objMatches x text)
    · simp [ih]
    · simp only [if_pos rfl, cond_true]
      rw [scan_find_acc]
      cases hr : rest.filter (fun x => sub x.typ typ && objMatches x text) with
      | nil => simp [hr]
      | cons y ys => simp [hr]

/-- C2.  Characterization of one Model.find attempt: with two or more
registered matching nodes the ambiguous error is raised at once
(whatever the no-suspend mode); with exactly one it is returned; with
none the task suspends when no-suspend mode is off and raises the
not-found LookupError when it is on.  Moreover, at the driver level, a
woken task whose leading lookup is ambiguous propagates the error
immediately (the lookup is never retried), whereas one whose leading
lookup finds nothing in suspend mode parks itself again with the very
same lookup at its head, to be retried on the next wake. -/
theorem C2_find_outcomes :
    ∀ (sub : Nat → Nat → Bool) (reg : List RegObj) (noSuspend : Bool) (typ text : Nat),
      (2 ≤ (reg.filter (fun o => sub o.typ typ && objMatches o text)).length →
        find_step sub reg noSuspend typ text = .ambiguous) ∧
      (∀ o, reg.filter (fun o => sub o.typ typ && objMatches o text) = [o] →
        find_step sub reg noSuspend typ text = .found o) ∧
      (reg.filter (fun o => sub o.typ typ && objMatches o text) = [] → noSuspend = false →
        find_step sub reg noSuspend typ text = .suspend) ∧
      (reg.filter (fun o => sub o.typ typ && objMatches o text) = [] → noSuspend = true →
        find_step sub reg noSuspend typ text = .notFound) ∧
      (∀ (rest : List (Nat × Nat)) (ds : List RegObj),
        find_step sub reg noSuspend typ text = .ambiguous →
        wake_task sub reg noSuspend ((typ, text) :: rest) ds = .error PErr.ambiguousErr) ∧
      (∀ (rest : List (Nat × Nat)) (ds : List RegObj),
        find_step sub reg noSuspend typ text = .suspend →
        wake_task sub reg noSuspend ((typ, text) :: rest) ds =
          .ok (Sum.inl ⟨(typ, text) :: rest, ds⟩)) := by
  intro sub reg noSuspend typ text
  refine ⟨?amb, ?one, ?susp, ?nf, ?wamb, ?wsusp⟩
  case amb =>
    intro h2
    unfold find_step
    rw [scan_find_none]
    cases hf : reg.filter (fun o => sub o.typ typ && objMatches o text) with
    | nil => rw [hf] at h2; simp at h2
    | cons y ys =>
      cases ys with
      | nil => rw [hf] at h2; simp at h2
      | cons z zs => simp
  case one =>
    intro o ho
    unfold find_step
    rw [scan_find_none, ho]
  case susp =>
    intro h0 hns
    unfold find_step
    rw [scan_find_none, h0, hns]
    rfl
  case nf =>
    intro h0 hns
    unfold find_step
    rw [scan_find_none, h0, hns]
    rfl
  case wamb =>
    intro rest ds h
    unfold wake_task
    rw [h]
  case wsusp =>
    intro rest ds h
    unfold wake_task
    rw [h]

/-
Concrete registry for the C2 witness: two objects of type 3 both
matching text 7, one object of type 4 matching text 8, the subclass
relation being equality.
-/

def C2sub : Nat → Nat → Bool := fun a b => a == b

def C2reg : List RegObj := [⟨1, 3, [7]⟩, ⟨2, 3, [7]⟩, ⟨3, 4, [8]⟩]

/-- Witness for C2: on the concrete registry, looking up text 7 at type
3 is ambiguous (two matches) and the driver propagates the error from a
woken task; looking up text 8 at type 4 finds object 3; looking up text
9 suspends when no-suspend is off, parking the task unchanged, and
raises not-found when it is on. -/
theorem C2_find_outcomes_witness :
    find_step C2sub C2reg false 3 7 = .ambiguous ∧
    find_step C2sub C2reg false 4 8 = .found ⟨3, 4, [8]⟩ ∧
    find_step C2sub C2reg false 4 9 = .suspend ∧
    find_step C2sub C2reg true 4 9 = .notFound ∧
    wake_task C2sub C2reg false [(3, 7)] [] = .error PErr.ambiguousErr ∧
    wake_task C2sub C2reg false [(4, 9)] [] = .ok (Sum.inl ⟨[(4, 9)], []⟩) :=
  ⟨(C2_find_outcomes C2sub C2reg false 3 7).1 (by decide),
   (C2_find_outcomes C2sub C2reg false 4 8).2.1 ⟨3, 4, [8]⟩ (by decide),
   (C2_find_outcomes C2sub C2reg false 4 9).2.2.1 (by decide) rfl,
   (C2_find_outcomes C2sub C2reg true 4 9).2.2.2.1 (by decide) rfl,
   (C2_find_outcomes C2sub C2reg false 3 7).2.2.2.2.1 [] []
     ((C2_find_outcomes C2sub C2reg false 3 7).1 (by decide)),
   (C2_find_outcomes C2sub C2reg false 4 9).2.2.2.2.2 [] []
     ((C2_find_outcomes C2sub C2reg false 4 9).2.2.1 (by decide) rfl)⟩

theorem find_step_no_suspend (sub : Nat → Nat → Bool) (reg : List RegObj) (typ text : Nat) :
    find_step sub reg true typ text ≠ .suspend := by
  unfold find_step
  cases h : scan_find sub typ text reg none with
  | none => simp
  | some o =>
    cases o with
    | none => simp
    | some x => simp

theorem wake_task_no_suspend (sub : Nat → Nat → Bool) (reg : List RegObj) :
    ∀ (refs : List (Nat × Nat)) (ds : List RegObj) (r : PTask ⊕ List RegObj),
      wake_task sub reg true refs ds = .ok r → ∃ reg2, r = Sum.inr reg2 := by
  intro refs
  induction refs with
  | nil =>
    intro ds r h
    simp only [wake_task] at h
    injection h with h
    exact ⟨reg ++ ds, h.symm⟩
  | cons rf rest ih =>
    intro ds r h
    simp only [wake_task] at h
    cases hf : find_step sub reg true rf.1 rf.2 with
    | found o => rw [hf] at h; exact ih ds r h
    | ambiguous => rw [hf] at h; cases h
    | notFound => rw [hf] at h; cases h
    | suspend => exact absurd hf (find_step_no_suspend sub reg rf.1 rf.2)

theorem run_cycle_shape (sub : Nat → Nat → Bool) :
    ∀ (retry : List PTask) (s0 s2 : PState), run_cycle sub retry s0 = .ok s2 →
      s2.suspended.length ≤ s0.suspended.length + retry.length ∧
      s2.noSuspend = s0.noSuspend := by
  intro retry
  induction retry with
  | nil =>
    intro s0 s2 h
    simp only [run_cycle] at h
    injection h with h
    subst h
    simp
  | cons t rest ih =>
    intro s0 s2 h
    simp only [run_cycle] at h
    cases hw : wake_task sub s0.registered s0.noSuspend t.refs t.defs with
    | error e => rw [hw] at h; cases h
    | ok r =>
      rw [hw] at h
      cases r with
      | inl t2 =>
        obtain ⟨h1, h2⟩ := ih { s0 with suspended := s0.suspended ++ [t2] } s2 h
        constructor
        · simp only [List.length_append, List.length_cons] at h1 ⊢
          simp at h1
          omega
        · simpa using h2
      | inr reg2 =>
        obtain ⟨h1, h2⟩ := ih { s0 with registered := reg2 } s2 h
        constructor
        · simp only [List.length_cons] at h1 ⊢
          omega
        · exact h2

theorem run_cycle_ns (sub : Nat → Nat → Bool) :
    ∀ (retry : List PTask) (s0 s2 : PState), s0.noSuspend = true →
      run_cycle sub retry s0 = .ok s2 → s2.suspended = s0.suspended := by
  intro retry
  induction retry with
  | nil =>
    intro s0 s2 hns h
    simp only [run_cycle] at h
    injection h with h
    subst h
    rfl
  | cons t rest ih =>
    intro s0 s2 hns h
    simp only [run_cycle] at h
    cases hw : wake_task sub s0.registered s0.noSuspend t.refs t.defs with
    | error e => rw [hw] at h; cases h
    | ok r =>
      rw [hw] at h
      rw [hns] at hw
      obtain ⟨reg2, hr⟩ := wake_task_no_suspend sub s0.registered t.refs t.defs r hw
      subst hr
      exact ih { s0 with registered := reg2 } s2 hns h

theorem finish_parsing_total (sub : Nat → Nat → Bool) :
    ∀ (m : Nat) (s : PState),
      2 * s.suspended.length + (if s.noSuspend then 0 else 1) ≤ m →
      ∃ n r, finish_parsing sub n s = some r := by
  intro m
  induction m with
  | zero =>
    intro s hb
    have hemp : s.suspended.isEmpty = true := by
      cases hl : s.suspended with
      | nil => rfl
      | cons a b =>
        rw [hl] at hb
        by_cases hns : s.noSuspend
        · rw [if_pos hns] at hb
          simp at hb
        · rw [if_neg hns] at hb
          simp at hb
    exact ⟨1, .ok s.registered, by simp [finish_parsing, hemp]⟩
  | succ m ih =>
    intro s hb
    by_cases hemp : s.suspended.isEmpty
    · exact ⟨1, .ok s.registered, by simp [finish_parsing, hemp]⟩
    · cases hrc : run_cycle sub s.suspended { s with suspended := [] } with
      | error e =>
        refine ⟨1, .error e, ?_⟩
        simp only [finish_parsing, if_neg hemp]
        rw [hrc]
      | ok s2 =>
        have hshape := run_cycle_shape sub s.suspended _ s2 hrc
        simp only [List.length_nil, Nat.zero_add] at hshape
        obtain ⟨hlen, hns2⟩ := hshape
        have hstep :
            ∃ n r, finish_parsing sub n
              (if s2.suspended.length = s.suspended.length then
                { s2 with noSuspend := true } else s2) = some r := by
          by_cases hcase : s2.suspended.length = s.suspended.length
          · rw [if_pos hcase]
            by_cases hns : s.noSuspend
            · have hs2 : s2.suspended = [] := by
                have := run_cycle_ns sub s.suspended { s with suspended := [] }
                  s2 (by simp [hns]) hrc
                simpa using this
              apply ih
              simp [hs2]
            · apply ih
              have h1 : (if s.noSuspend then (0 : Nat) else 1) = 1 := by simp [hns]
              rw [h1] at hb
              simp
              omega
          · rw [if_neg hcase]
            apply ih
            have hlt : s2.suspended.length < s.suspended.length :=
              Nat.lt_of_le_of_ne hlen hcase
            have hi2 : (if s2.noSuspend then (0 : Nat) else 1) ≤ 1 := by
              by_cases h2 : s2.noSuspend <;> simp [h2]
            omega
        obtain ⟨n, r, hn⟩ := hstep
        refine ⟨n + 1, r, ?_⟩
        simp only [finish_parsing, if_neg hemp]
        rw [hrc]
        exact hn

/-- C1.  The forward-reference resolution driver always terminates: for
every parser state there is a fuel bound within which finish_parsing
returns, and the returned value is either the fully populated registry
or a raised LookupError (the Except value); furthermore once the
no-suspend flag is set, a woken task can only complete or raise a
LookupError, never suspend again, so the final wake cycle ends the
run even on an unresolvable reference cycle. -/
theorem C1_finish_parsing_terminates :
    ∀ (sub : Nat → Nat → Bool) (s : PState),
      (∃ n r, finish_parsing sub n s = some r) ∧
      (∀ (reg : List RegObj) (refs : List (Nat × Nat)) (ds : List RegObj)
         (r : PTask ⊕ List RegObj),
        wake_task sub reg true refs ds = .ok r → ∃ reg2, r = Sum.inr reg2) := by
  intro sub s
  constructor
  · exact finish_parsing_total sub
      (2 * s.suspended.length + (if s.noSuspend then 0 else 1)) s (Nat.le_refl _)
  · intro reg refs ds r h
    exact wake_task_no_suspend sub reg refs ds r h

/-
Concrete state for the C1 witness: two suspended tasks referencing the
registration of each other (a true forward-reference cycle with no
escape), on an empty registry.
-/

def C1cycle : PState :=
  ⟨[], [⟨[(0, 101)], [⟨1, 0, [100]⟩]⟩, ⟨[(0, 100)], [⟨2, 0, [101]⟩]⟩], false⟩

/-- Witness for C1: the driver terminates on the cyclic state, and a
woken completing task in no-suspend mode yields its registrations. -/
theorem C1_finish_parsing_terminates_witness :
    (∃ n r, finish_parsing (fun a b => a == b) n C1cycle = some r) ∧
    (∃ reg2, (Sum.inr ([] ++ [(⟨9, 0, [5]⟩ : RegObj)]) : PTask ⊕ List RegObj) =
      Sum.inr reg2) :=
  ⟨(C1_finish_parsing_terminates (fun a b => a == b) C1cycle).1,
   (C1_finish_parsing_terminates (fun a b => a == b) C1cycle).2 [] [] [⟨9, 0, [5]⟩] _ rfl⟩

/-
Model.register (six/model.py lines 52-68, sixx/model.py lines 45-61):
the per-type registry dictionary is keyed by the value equality of the
node; a hit returns the canonical instance after asserting that the
principal flag of its single In_model link equals the one passed; a miss
stores the node and creates its In_model link.  Entries are identified
by eid (the object id); nextId generates fresh ids.
-/

structure RegEntry where
  typ : Nat
  val : Nat
  eid : Nat
deriving DecidableEq

structure InModelLink where
  node : Nat
  principal : Bool
deriving DecidableEq

structure RState where
  entries : List RegEntry
  imLinks : List InModelLink
  nextId : Nat
deriving DecidableEq

/-- Model.register.  The filter on imLinks embeds
node.link(outgoing and is_link(In_model)): the link() contract demands
at most one match, and a missing link would crash the principal-flag
read, so any shape other than a single link is an error. -/
def Model.register (s : RState) (typ val : Nat) (principal : Bool) :
    Except String (Nat × RState) :=
  match s.entries.find? (fun e => e.typ == typ && e.val == val) with
  | some e =>
    match s.imLinks.filter (fun l => l.node == e.eid) with
    | [l] =>
      if l.principal == principal then .ok (e.eid, s)
      else .error "assert link.principal == principal"
    | _ => .error "link at-most-one assertion"
  | none =>
    .ok (s.nextId,
      { entries := s.entries ++ [⟨typ, val, s.nextId⟩]
        imLinks := s.imLinks ++ [⟨s.nextId, principal⟩]
        nextId := s.nextId + 1 })

def run_register : List (Nat × Nat × Bool) → RState → Except String RState
  | [], s => .ok s
  | (typ, val, p) :: rest, s =>
    match Model.register s typ val p with
    | .error e => .error e
    | .ok (_, s2) => run_register rest s2

def RInv (s : RState) : Prop :=
  (∀ e ∈ s.entries,
    e.eid < s.nextId ∧ (s.imLinks.filter (fun l => l.node == e.eid)).length = 1) ∧
  (∀ l ∈ s.imLinks, l.node < s.nextId)

theorem register_inv (s : RState) (typ val : Nat) (p : Bool) (eid : Nat) (s2 : RState)
    (hinv : RInv s) (h : Model.register s typ val p = .ok (eid, s2)) : RInv s2 := by
  unfold Model.register at h
  split at h
  · split at h
    · split at h
      · injection h with h
        rw [Prod.mk.injEq] at h
        obtain ⟨-, h2⟩ := h
        subst h2
        exact hinv
      · cases h
    · cases h
  · injection h with h
    rw [Prod.mk.injEq] at h
    obtain ⟨-, h2⟩ := h
    subst h2
    obtain ⟨hent, hlink⟩ := hinv
    constructor
    · intro e he
      rw [List.mem_append] at he
      rcases he with he | he
      · obtain ⟨hlt, hone⟩ := hent e he
        constructor
        · exact Nat.lt_succ_of_lt hlt
        · rw [List.filter_append]
          have hne : (s.nextId == e.eid) = false :=
            beq_eq_false_iff_ne.mpr (Nat.ne_of_gt hlt)
          simpa [hne] using hone
      · rw [List.mem_singleton] at he
        subst he
        constructor
        · exact Nat.lt_succ_self _
        · rw [List.filter_append]
          have hall : s.imLinks.filter (fun l => l.node == s.nextId) = [] := by
            rw [List.filter_eq_nil_iff]
            intro l hl
            have := hlink l hl
            simp only [beq_iff_eq]
            omega
          simp [hall]
    · intro l hl
      rw [List.mem_append] at hl
      rcases hl with hl | hl
      · exact Nat.lt_succ_of_lt (hlink l hl)
      · rw [List.mem_singleton] at hl
        subst hl
        exact Nat.lt_succ_self _

theorem run_register_inv :
    ∀ (ops : List (Nat × Nat × Bool)) (s0 s : RState),
      RInv s0 → run_register ops s0 = .ok s → RInv s := by
  intro ops
  induction ops with
  | nil =>
    intro s0 s hinv h
    simp only [run_register] at h
    injection h with h
    subst h
    exact hinv
  | cons op rest ih =>
    intro s0 s hinv h
    obtain ⟨typ, val, p⟩ := op
    simp only [run_register] at h
    split at h
    · cases h
    · rename_i a s2 heq
      exact ih _ s (register_inv s0 typ val p a s2 hinv heq) h

/-- C10.  Registering a node value-equal to an already registered node
returns the previously registered canonical instance with the state
unchanged (so no second In_model link is created) when the passed
principal flag equals the one recorded by the In_model link made at
first registration, and fails with the assertion error when the flags
differ; and in every state built by register from the empty model,
each registered node has exactly one In_model link. -/
theorem C10_register_principal :
    (∀ (s : RState) (typ val : Nat) (p : Bool) (e : RegEntry) (l : InModelLink),
      s.entries.find? (fun e2 => e2.typ == typ && e2.val == val) = some e →
      s.imLinks.filter (fun l2 => l2.node == e.eid) = [l] →
      (l.principal = p → Model.register s typ val p = .ok (e.eid, s)) ∧
      (l.principal ≠ p → ∃ msg, Model.register s typ val p = .error msg)) ∧
    (∀ (ops : List (Nat × Nat × Bool)) (s : RState),
      run_register ops ⟨[], [], 0⟩ = .ok s →
      ∀ e ∈ s.entries, (s.imLinks.filter (fun l => l.node == e.eid)).length = 1) := by
  constructor
  · intro s typ val p e l hfind hfilter
    constructor
    · intro hp
      unfold Model.register
      rw [hfind]
      simp [hfilter, hp]
    · intro hp
      unfold Model.register
      rw [hfind]
      have hb : (l.principal == p) = false := beq_eq_false_iff_ne.mpr hp
      refine ⟨"assert link.principal == principal", ?_⟩
      simp [hfilter, hb]
  · intro ops s hrun e he
    have hinv : RInv s := by
      refine run_register_inv ops ⟨[], [], 0⟩ s ?_ hrun
      constructor
      · intro e2 he2
        cases he2
      · intro l hl
        cases hl
    exact (hinv.1 e he).2

/-
Concrete run for the C10 witness: one registration of the node
(type 3, value 5) with the principal flag true.
-/

def C10s : RState := ⟨[⟨3, 5, 0⟩], [⟨0, true⟩], 1⟩

def C10ops : List (Nat × Nat × Bool) := [(3, 5, true)]

/-- Witness for C10: after registering (3, 5, principal true), a repeat
registration with principal true returns the canonical id 0 and the
unchanged state, a repeat with principal false fails, and every entry of
the resulting state has exactly one In_model link. -/
theorem C10_register_principal_witness :
    Model.register C10s 3 5 true = .ok (0, C10s) ∧
    (∃ msg, Model.register C10s 3 5 false = .error msg) ∧
    (∀ e ∈ C10s.entries, (C10s.imLinks.filter (fun l => l.node == e.eid)).length = 1) :=
  ⟨(C10_register_principal.1 C10s 3 5 true ⟨3, 5, 0⟩ ⟨0, true⟩ rfl rfl).1 rfl,
   (C10_register_principal.1 C10s 3 5 false ⟨3, 5, 0⟩ ⟨0, true⟩ rfl rfl).2 (by decide),
   C10_register_principal.2 C10ops C10s rfl⟩
